import Mathlib

/-
Verification of the surface-generator modules of sage-flatsurf
(`flatsurf/geometry/similarity_surface_generators.py`,
`flatsurf/geometry/chamanara.py`, and the duplicated top-level
`similarity_surface_generators.py`).

The Python code is shallowly embedded: labels are `ℤ` (InfiniteStaircase,
EInfinity, ChamanaraSurface) or pairs of a word over {L, R} and an integer
tag (TFractal); exact-field scalars are elements of an arbitrary
commutative ring (for the EInfinity coefficient recurrences) or of a field
(for polygon coordinates); Python exceptions are modelled with `Except`.
-/

/-- The alphabet {L, R} of the `Words('LR')` label components of `TFractal`. -/
inductive TSym : Type
  | L
  | R
deriving DecidableEq, Repr

/-- Python-level failures that the embedded functions can raise:
`valueError` for an explicit `raise ValueError(...)`, `nameError` for a read
of a never-assigned variable, `zeroDivision` for exact division by zero. -/
inductive PyErr : Type
  | valueError
  | nameError
  | zeroDivision
deriving DecidableEq, Repr

/-! ### InfiniteStaircase (flatsurf/geometry/similarity_surface_generators.py, lines 53-60)

```python
def opposite_edge(self, p, e):
    if (p+e) % 2:
        return p+1,(e+2)%4
    else:
        return p-1,(e+2)%4
```
Python `%` on a positive modulus agrees with `Int.emod`, and the truthiness
test `if (p+e) % 2:` means `(p+e) % 2 ≠ 0`. -/
def infiniteStaircase_opposite_edge (p e : ℤ) : ℤ × ℤ :=
  if (p + e) % 2 ≠ 0 then (p + 1, (e + 2) % 4) else (p - 1, (e + 2) % 4)

/-! ### EInfinity (flatsurf/geometry/similarity_surface_generators.py) -/

/-- `EInfinity.opposite_edge` (lines 153-202).  The Python method is a chain
of `return` statements guarded by `if p==...: if e==...:` tests; a guard that
does not fire falls through to the next one, so the method flattens to the
if-chain below.  The final `if p>2: ... else: ...` of the source has two
identical branches; the redundant split is kept. -/
def eInfinity_opposite_edge (p e : ℤ) : ℤ × ℤ :=
  if p = 0 ∧ e = 0 then (0, 2)
  else if p = 0 ∧ e = 1 then (1, 3)
  else if p = 0 ∧ e = 2 then (0, 0)
  else if p = 0 ∧ e = 3 then (1, 1)
  else if p = 1 ∧ e = 0 then (-1, 2)
  else if p = 1 ∧ e = 1 then (0, 3)
  else if p = 1 ∧ e = 2 then (2, 0)
  else if p = 1 ∧ e = 3 then (0, 1)
  else if p = -1 ∧ e = 0 then (2, 2)
  else if p = -1 ∧ e = 1 then (-1, 3)
  else if p = -1 ∧ e = 2 then (1, 0)
  else if p = -1 ∧ e = 3 then (-1, 1)
  else if p = 2 ∧ e = 0 then (1, 2)
  else if p = 2 ∧ e = 1 then (-2, 3)
  else if p = 2 ∧ e = 2 then (-1, 0)
  else if p = 2 ∧ e = 3 then (-2, 1)
  else if p > 2 then
    if e % 2 ≠ 0 then (-p, (e + 2) % 4) else (1 - p, (e + 2) % 4)
  else
    if e % 2 ≠ 0 then (-p, (e + 2) % 4) else (1 - p, (e + 2) % 4)

/-- Termination measure for `get_white` at index `n`. -/
def whiteMeasure (n : ℤ) : ℕ := (2 * n + 1).toNat + (2 - 2 * n).toNat

/-- Termination measure for `get_black` at index `n`. -/
def blackMeasure (n : ℤ) : ℕ := (2 * n).toNat + (3 - 2 * n).toNat

section EInfinityCoefficients

variable {R : Type} [CommRing R]

mutual

/-- `EInfinity.get_white` (lines 108-122), with the surface's scalar `self._l`
passed explicitly as `l`:

```python
def get_white(self,n):
    l=self._l
    if n==0 or n==1: return l
    if n==-1: return l-1
    if n==2: return 1-3*l+l**2
    if n>2:
        x=self.get_white(n-1)
        y=self.get_black(n)
        return l*y-x
    return self.get_white(-n)
``` -/
def get_white (l : R) (n : ℤ) : R :=
  if n = 0 ∨ n = 1 then l
  else if n = -1 then l - 1
  else if n = 2 then 1 - 3 * l + l ^ 2
  else if n > 2 then l * get_black l n - get_white l (n - 1)
  else get_white l (-n)
termination_by whiteMeasure n
decreasing_by
  all_goals simp only [whiteMeasure, blackMeasure] at *
  all_goals omega

/-- `EInfinity.get_black` (lines 124-136):

```python
def get_black(self,n):
    l=self._l
    if n==0: return self._field(1)
    if n==1 or n==-1 or n==2: return l-1
    if n>2:
        x=self.get_black(n-1)
        y=self.get_white(n-1)
        return y-x
    return self.get_black(1-n)
``` -/
def get_black (l : R) (n : ℤ) : R :=
  if n = 0 then 1
  else if n = 1 ∨ n = -1 ∨ n = 2 then l - 1
  else if n > 2 then get_white l (n - 1) - get_black l (n - 1)
  else get_black l (1 - n)
termination_by blackMeasure n
decreasing_by
  all_goals simp only [whiteMeasure, blackMeasure] at *
  all_goals omega

end

mutual

/-- Fuel-indexed (step-counted) version of `get_white`: each recursive call of
the Python method consumes one unit of fuel, and running out of fuel returns
`none`.  This models the actual recursive execution of `EInfinity.get_white`. -/
def get_whiteF (l : R) : ℕ → ℤ → Option R
  | 0, _ => none
  | fuel + 1, n =>
    if n = 0 ∨ n = 1 then some l
    else if n = -1 then some (l - 1)
    else if n = 2 then some (1 - 3 * l + l ^ 2)
    else if n > 2 then
      match get_whiteF l fuel (n - 1), get_blackF l fuel n with
      | some x, some y => some (l * y - x)
      | _, _ => none
    else get_whiteF l fuel (-n)

/-- Fuel-indexed (step-counted) version of `get_black`. -/
def get_blackF (l : R) : ℕ → ℤ → Option R
  | 0, _ => none
  | fuel + 1, n =>
    if n = 0 then some 1
    else if n = 1 ∨ n = -1 ∨ n = 2 then some (l - 1)
    else if n > 2 then
      match get_whiteF l fuel (n - 1), get_blackF l fuel (n - 1) with
      | some y, some x => some (y - x)
      | _, _ => none
    else get_blackF l fuel (1 - n)

end

end EInfinityCoefficients

/-! ### TFractal (flatsurf/geometry/similarity_surface_generators.py) -/

/-- `TFractal.opposite_edge` (lines 259-336).  A label is a pair
`(word over {L,R}, tag i)`.  The source first computes the opposite edge `f`
(raising `ValueError` when `e ∉ {0,1,2,3}`), then selects the opposite label
by cases on `i` (raising `ValueError` when `i ∉ {0,1,2,3}`) and on `e`;
`w.is_empty()`, `w[-1]` and `w[:-1]` become `= []`, `List.getLast?` and
`List.dropLast`; `w + self._wL` becomes `w ++ [TSym.L]`. -/
def tfractal_opposite_edge (p : List TSym × ℤ) (e : ℤ) :
    Except PyErr ((List TSym × ℤ) × ℤ) :=
  let w := p.1
  let i := p.2
  if e = 0 ∨ e = 1 ∨ e = 2 ∨ e = 3 then
    if i = 0 ∨ i = 1 ∨ i = 2 ∨ i = 3 then
      let f : ℤ := if e = 0 then 2 else if e = 1 then 3 else if e = 2 then 0 else 1
      let lab : List TSym × ℤ :=
        if i = 0 then
          if e = 0 then
            match w.getLast? with
            | none => (w, 2)
            | some TSym.L => (w.dropLast, 1)
            | some TSym.R => (w.dropLast, 3)
          else if e = 1 then (w, 0)
          else if e = 2 then (w, 2)
          else (w, 0)
        else if i = 1 then
          if e = 0 then (w ++ [TSym.L], 2)
          else if e = 1 then (w, 2)
          else if e = 2 then (w ++ [TSym.L], 0)
          else (w, 3)
        else if i = 2 then
          if e = 0 then (w, 0)
          else if e = 1 then (w, 3)
          else if e = 2 then
            match w.getLast? with
            | none => (w, 0)
            | some TSym.L => (w.dropLast, 1)
            | some TSym.R => (w.dropLast, 3)
          else (w, 1)
        else
          if e = 0 then (w ++ [TSym.R], 2)
          else if e = 1 then (w, 1)
          else if e = 2 then (w ++ [TSym.R], 0)
          else (w, 2)
      Except.ok (lab, f)
    else Except.error PyErr.valueError
  else Except.error PyErr.valueError

section TFractalPolygon

variable {F : Type} [Field F] [DecidableEq F]

/-- `TFractal._base_polygon` (flatsurf version, lines 362-374), as the list of
edge vectors `[(w,0),(0,h),(-w,0),(0,-h)]`.  The source's sequential `if`
blocks assign `w`, `h` only for `i ∈ {0,1,2,3}`; any other `i` leaves them
unassigned and the final line raises `NameError`. -/
def tfractal_base_polygon (w r h1 h2 : F) (i : ℤ) : Except PyErr (List (F × F)) :=
  if i = 0 then Except.ok [(w, 0), (0, h1), (-w, 0), (0, -h1)]
  else if i = 1 ∨ i = 3 then Except.ok [(w / r, 0), (0, h2), (-w / r, 0), (0, -h2)]
  else if i = 2 then Except.ok [(w, 0), (0, h2), (-w, 0), (0, -h2)]
  else Except.error PyErr.nameError

/-- `TFractal.polygon` (flatsurf version, lines 338-360):
`return (1 / self._r ** w.length()) * self._base_polygon(lab[1])` with
`w = self._words(lab[0])`.  Scaling a polygon multiplies each edge vector;
Python's exact division raises `ZeroDivisionError` on a zero divisor. -/
def tfractal_polygon (w r h1 h2 : F) (lab : List TSym × ℤ) :
    Except PyErr (List (F × F)) :=
  if r ^ lab.1.length = 0 then Except.error PyErr.zeroDivision
  else
    match tfractal_base_polygon w r h1 h2 lab.2 with
    | Except.error err => Except.error err
    | Except.ok base =>
        Except.ok (base.map fun v =>
          ((1 / r ^ lab.1.length) * v.1, (1 / r ^ lab.1.length) * v.2))

/-- `TFractal.polygon` of the duplicated top-level module
`similarity_surface_generators.py` (lines 295-307):

```python
def polygon(self, lab):
    return (1 / self._r ** w.length()) * self._base_polygon(lab[1])
```

No statement assigns `w` (the method never unpacks `lab[0]`), and the module
has no global `w`, so evaluating `w.length()` raises `NameError` on every
call, before `_base_polygon` is ever invoked. -/
def dup_tfractal_polygon (w r h1 h2 : F) (lab : List TSym × ℤ) :
    Except PyErr (List (F × F)) :=
  Except.error PyErr.nameError

end TFractalPolygon

/-! ### ChamanaraSurface (flatsurf/geometry/chamanara.py) -/

/-- `ChamanaraPolygon` (lines 18-28), over `ℚ` (the parent field of a rational
`alpha`).  The source contains

```python
if not field in Fields():
    ValueError("The value of alpha must lie in a field.")
if alpha<=0 or alpha>=1:
    ValueError("The value of alpha must be between zero and one.")
```

— both `ValueError(...)` calls merely construct the exception object and
discard it (there is no `raise`), so neither check has any effect.  The only
way the function can fail is the exact division `x=1/(1-alpha)` raising
`ZeroDivisionError` at `alpha = 1`.  The result is the polygon with edge
vectors `(1,0), (-x,x), (0,-1), (x-1,1-x)`. -/
def chamanaraPolygon (alpha : ℚ) : Except PyErr (List (ℚ × ℚ)) :=
  if 1 - alpha = 0 then Except.error PyErr.zeroDivision
  else
    let x := 1 / (1 - alpha)
    Except.ok [(1, 0), (-x, x), (0, -1), (x - 1, 1 - x)]

/-- `ChamanaraSurface.opposite_edge` (lines 64-81):

```python
def opposite_edge(self, p, e):
    if e==0 or e==2: return 1-p,e
    elif e==1:
        if p<0: return p+1,3
        elif p>1: return p-1,3
        else: return 1-p,1
    else:
        # e==3
        if p<=0: return p-1,1
        else: return p+1,1
``` -/
def chamanara_opposite_edge (p e : ℤ) : ℤ × ℤ :=
  if e = 0 ∨ e = 2 then (1 - p, e)
  else if e = 1 then
    if p < 0 then (p + 1, 3)
    else if p > 1 then (p - 1, 3)
    else (1 - p, 1)
  else
    if p ≤ 0 then (p - 1, 1) else (p + 1, 1)

/-! ## Equation lemmas for the EInfinity coefficient recursion -/

section EInfinityEquations

variable {R : Type} [CommRing R] (l : R)

theorem get_white_base01 (n : ℤ) (h : n = 0 ∨ n = 1) : get_white l n = l := by
  rw [get_white, if_pos h]

theorem get_white_neg_one : get_white l (-1) = l - 1 := by
  rw [get_white]
  norm_num

theorem get_white_two : get_white l 2 = 1 - 3 * l + l ^ 2 := by
  rw [get_white]
  norm_num

theorem get_white_rec (n : ℤ) (h : 2 < n) :
    get_white l n = l * get_black l n - get_white l (n - 1) := by
  rw [get_white, if_neg (by omega), if_neg (by omega), if_neg (by omega),
    if_pos h]

theorem get_white_reflect (n : ℤ) (h : n < -1) : get_white l n = get_white l (-n) := by
  rw [get_white, if_neg (by omega), if_neg (by omega), if_neg (by omega),
    if_neg (by omega)]

theorem get_black_zero : get_black l 0 = 1 := by
  rw [get_black, if_pos rfl]

theorem get_black_special (n : ℤ) (h : n = 1 ∨ n = -1 ∨ n = 2) :
    get_black l n = l - 1 := by
  rw [get_black, if_neg (by omega), if_pos h]

theorem get_black_rec (n : ℤ) (h : 2 < n) :
    get_black l n = get_white l (n - 1) - get_black l (n - 1) := by
  rw [get_black, if_neg (by omega), if_neg (by omega), if_pos h]

theorem get_black_reflect (n : ℤ) (h0 : n < 0) (h1 : n ≠ -1) :
    get_black l n = get_black l (1 - n) := by
  rw [get_black, if_neg (by omega), if_neg (by omega), if_neg (by omega)]

end EInfinityEquations

/-! ## Fuel adequacy: the recursion of `get_white`/`get_black` terminates -/

section EInfinityTermination

variable {R : Type} [CommRing R]

theorem whiteMeasure_lt_succ_white (n : ℤ) (h : 2 < n) :
    whiteMeasure (n - 1) < whiteMeasure n := by
  simp only [whiteMeasure]
  omega

theorem getF_adequate (l : R) (fuel : ℕ) :
    (∀ n : ℤ, whiteMeasure n < fuel → get_whiteF l fuel n = some (get_white l n)) ∧
    (∀ n : ℤ, blackMeasure n < fuel → get_blackF l fuel n = some (get_black l n)) := by
  induction fuel with
  | zero => exact ⟨fun n h => absurd h (by omega), fun n h => absurd h (by omega)⟩
  | succ fuel ih =>
    obtain ⟨ihw, ihb⟩ := ih
    constructor
    · intro n h
      rw [get_whiteF]
      by_cases h01 : n = 0 ∨ n = 1
      · rw [if_pos h01, get_white_base01 l n h01]
      rw [if_neg h01]
      by_cases hm1 : n = -1
      · subst hm1
        rw [if_pos rfl, get_white_neg_one]
      rw [if_neg hm1]
      by_cases h2 : n = 2
      · subst h2
        rw [if_pos rfl, get_white_two]
      rw [if_neg h2]
      by_cases hgt : n > 2
      · rw [if_pos hgt]
        have hw : whiteMeasure (n - 1) < fuel := by
          simp only [whiteMeasure] at h ⊢
          omega
        have hb : blackMeasure n < fuel := by
          simp only [whiteMeasure, blackMeasure] at h ⊢
          omega
        rw [ihw (n - 1) hw, ihb n hb, get_white_rec l n hgt]
      · rw [if_neg hgt]
        have hneg : n < -1 := by omega
        have hw : whiteMeasure (-n) < fuel := by
          simp only [whiteMeasure] at h ⊢
          omega
        rw [ihw (-n) hw, get_white_reflect l n hneg]
    · intro n h
      rw [get_blackF]
      by_cases h0 : n = 0
      · subst h0
        rw [if_pos rfl, get_black_zero]
      rw [if_neg h0]
      by_cases hs : n = 1 ∨ n = -1 ∨ n = 2
      · rw [if_pos hs, get_black_special l n hs]
      rw [if_neg hs]
      by_cases hgt : n > 2
      · rw [if_pos hgt]
        have hw : whiteMeasure (n - 1) < fuel := by
          simp only [whiteMeasure, blackMeasure] at h ⊢
          omega
        have hb : blackMeasure (n - 1) < fuel := by
          simp only [blackMeasure] at h ⊢
          omega
        rw [ihw (n - 1) hw, ihb (n - 1) hb, get_black_rec l n hgt]
      · rw [if_neg hgt]
        have hneg : n < 0 := by omega
        have hb : blackMeasure (1 - n) < fuel := by
          simp only [blackMeasure] at h ⊢
          omega
        rw [ihb (1 - n) hb, get_black_reflect l n hneg (by omega)]

end EInfinityTermination

/-! ## Claim C4: the EInfinity coefficient recurrence system -/

/-- C4: for every integer `n` the EInfinity coefficient sequences satisfy
exactly the spec's recurrence system: `get_white(0)=get_white(1)=λ`,
`get_white(-1)=λ-1`, `get_white(2)=1-3λ+λ²`,
`get_white(n)=λ·get_black(n)-get_white(n-1)` for `n>2`,
`get_white(n)=get_white(-n)` for `n<-1`; `get_black(0)=1`,
`get_black(1)=get_black(-1)=get_black(2)=λ-1`,
`get_black(n)=get_white(n-1)-get_black(n-1)` for `n>2`,
`get_black(n)=get_black(1-n)` for `n<0`, `n≠-1`. -/
theorem eInfinity_coefficient_recurrences {R : Type} [CommRing R] (l : R) :
    get_white l 0 = l ∧ get_white l 1 = l ∧ get_white l (-1) = l - 1 ∧
    get_white l 2 = 1 - 3 * l + l ^ 2 ∧
    (∀ n : ℤ, 2 < n → get_white l n = l * get_black l n - get_white l (n - 1)) ∧
    (∀ n : ℤ, n < -1 → get_white l n = get_white l (-n)) ∧
    get_black l 0 = 1 ∧ get_black l 1 = l - 1 ∧ get_black l (-1) = l - 1 ∧
    get_black l 2 = l - 1 ∧
    (∀ n : ℤ, 2 < n → get_black l n = get_white l (n - 1) - get_black l (n - 1)) ∧
    (∀ n : ℤ, n < 0 → n ≠ -1 → get_black l n = get_black l (1 - n)) :=
  ⟨get_white_base01 l 0 (Or.inl rfl), get_white_base01 l 1 (Or.inr rfl),
    get_white_neg_one l, get_white_two l, get_white_rec l,
    fun n h => get_white_reflect l n h, get_black_zero l,
    get_black_special l 1 (Or.inl rfl), get_black_special l (-1) (Or.inr (Or.inl rfl)),
    get_black_special l 2 (Or.inr (Or.inr rfl)), get_black_rec l,
    get_black_reflect l⟩

/-- Witness for C4: the recurrence and reflection equations applied at the
concrete input `λ = 5` over `ℤ`, at indices `3` and `-2`. -/
theorem eInfinity_coefficient_recurrences_witness :
    (2:ℤ) < 3 ∧ get_white (5:ℤ) 3 = 5 * get_black (5:ℤ) 3 - get_white (5:ℤ) 2 ∧
    get_black (5:ℤ) (-2) = get_black (5:ℤ) (1 - (-2)) := by
  refine ⟨by norm_num, (eInfinity_coefficient_recurrences (5:ℤ)).2.2.2.2.1 3 (by norm_num), ?_⟩
  exact (eInfinity_coefficient_recurrences (5:ℤ)).2.2.2.2.2.2.2.2.2.2.2 (-2)
    (by norm_num) (by norm_num)

/-! ## Claim C9: termination of the mutual recursion -/

/-- C9: for every integer `n` the mutually recursive `EInfinity.get_white` and
`EInfinity.get_black` terminate: the step-counted executions `get_whiteF` and
`get_blackF` reach the answer of the total functions with a finite amount of
fuel, because every recursive call strictly decreases the integer measures
`whiteMeasure`/`blackMeasure` of distance to the base cases. -/
theorem get_white_black_terminate {R : Type} [CommRing R] (l : R) (n : ℤ) :
    ∃ fuel : ℕ, get_whiteF l fuel n = some (get_white l n) ∧
      get_blackF l fuel n = some (get_black l n) :=
  ⟨whiteMeasure n + blackMeasure n + 1,
    (getF_adequate l _).1 n (by omega),
    (getF_adequate l _).2 n (by omega)⟩

/-! ## Evaluation and involution lemmas for the gluing maps -/

theorem staircase_eval (p e : ℤ) :
    infiniteStaircase_opposite_edge p e =
      (if (p + e) % 2 = 1 then p + 1 else p - 1, (e + 2) % 4) := by
  simp only [infiniteStaircase_opposite_edge]
  split_ifs <;> first | rfl | omega

theorem staircase_invol (p e : ℤ) (he : e = 0 ∨ e = 1 ∨ e = 2 ∨ e = 3) :
    infiniteStaircase_opposite_edge (infiniteStaircase_opposite_edge p e).1
        (infiniteStaircase_opposite_edge p e).2 = (p, e) ∧
      infiniteStaircase_opposite_edge p e ≠ (p, e) := by
  rcases he with rfl | rfl | rfl | rfl <;>
    refine ⟨?_, ?_⟩ <;>
      (simp only [staircase_eval, Prod.mk.injEq, ne_eq]; split_ifs <;> omega)

theorem chamanara_eval0 (p : ℤ) : chamanara_opposite_edge p 0 = (1 - p, 0) := by
  norm_num [chamanara_opposite_edge]

theorem chamanara_eval2 (p : ℤ) : chamanara_opposite_edge p 2 = (1 - p, 2) := by
  norm_num [chamanara_opposite_edge]

theorem chamanara_eval1 (p : ℤ) : chamanara_opposite_edge p 1 =
    if p < 0 then (p + 1, 3) else if p > 1 then (p - 1, 3) else (1 - p, 1) := by
  norm_num [chamanara_opposite_edge]

theorem chamanara_eval3 (p : ℤ) : chamanara_opposite_edge p 3 =
    if p ≤ 0 then (p - 1, 1) else (p + 1, 1) := by
  norm_num [chamanara_opposite_edge]

theorem chamanara_invol (p e : ℤ) (he : e = 0 ∨ e = 1 ∨ e = 2 ∨ e = 3) :
    chamanara_opposite_edge (chamanara_opposite_edge p e).1
        (chamanara_opposite_edge p e).2 = (p, e) ∧
      chamanara_opposite_edge p e ≠ (p, e) := by
  rcases he with rfl | rfl | rfl | rfl
  · rw [chamanara_eval0]
    refine ⟨?_, ?_⟩
    · show chamanara_opposite_edge (1 - p) 0 = (p, 0)
      rw [chamanara_eval0]
      simp only [Prod.mk.injEq, and_true, true_and]
      omega
    · simp only [ne_eq, Prod.mk.injEq, and_true, true_and]
      omega
  · rw [chamanara_eval1]
    split_ifs with h0 h1
    · refine ⟨?_, ?_⟩
      · show chamanara_opposite_edge (p + 1) 3 = (p, 1)
        rw [chamanara_eval3]
        split_ifs <;> (simp only [Prod.mk.injEq, and_true, true_and]; omega)
      · simp only [ne_eq, Prod.mk.injEq, and_true, true_and]
        try omega
    · refine ⟨?_, ?_⟩
      · show chamanara_opposite_edge (p - 1) 3 = (p, 1)
        rw [chamanara_eval3]
        split_ifs <;> (simp only [Prod.mk.injEq, and_true, true_and]; omega)
      · simp only [ne_eq, Prod.mk.injEq, and_true, true_and]
        try omega
    · refine ⟨?_, ?_⟩
      · show chamanara_opposite_edge (1 - p) 1 = (p, 1)
        rw [chamanara_eval1]
        split_ifs <;> (simp only [Prod.mk.injEq, and_true, true_and]; omega)
      · simp only [ne_eq, Prod.mk.injEq, and_true, true_and]
        try omega
  · rw [chamanara_eval2]
    refine ⟨?_, ?_⟩
    · show chamanara_opposite_edge (1 - p) 2 = (p, 2)
      rw [chamanara_eval2]
      simp only [Prod.mk.injEq, and_true, true_and]
      omega
    · simp only [ne_eq, Prod.mk.injEq, and_true, true_and]
      omega
  · rw [chamanara_eval3]
    split_ifs with h0
    · refine ⟨?_, ?_⟩
      · show chamanara_opposite_edge (p - 1) 1 = (p, 3)
        rw [chamanara_eval1]
        split_ifs <;> (simp only [Prod.mk.injEq, and_true, true_and]; omega)
      · simp only [ne_eq, Prod.mk.injEq, and_true, true_and]
        try omega
    · refine ⟨?_, ?_⟩
      · show chamanara_opposite_edge (p + 1) 1 = (p, 3)
        rw [chamanara_eval1]
        split_ifs <;> (simp only [Prod.mk.injEq, and_true, true_and]; omega)
      · simp only [ne_eq, Prod.mk.injEq, and_true, true_and]
        try omega

theorem einf_gen (p e : ℤ) (hp0 : p ≠ 0) (hp1 : p ≠ 1) (hpm1 : p ≠ -1)
    (hp2 : p ≠ 2) :
    eInfinity_opposite_edge p e =
      if e % 2 ≠ 0 then (-p, (e + 2) % 4) else (1 - p, (e + 2) % 4) := by
  simp only [eInfinity_opposite_edge, hp0, hp1, hpm1, hp2, false_and, if_false,
    ite_self]

theorem einf_invol (p e : ℤ) (he : e = 0 ∨ e = 1 ∨ e = 2 ∨ e = 3) :
    eInfinity_opposite_edge (eInfinity_opposite_edge p e).1
        (eInfinity_opposite_edge p e).2 = (p, e) ∧
      eInfinity_opposite_edge p e ≠ (p, e) := by
  have hp : p = -2 ∨ p = -1 ∨ p = 0 ∨ p = 1 ∨ p = 2 ∨ p < -2 ∨ 2 < p := by omega
  rcases hp with rfl | rfl | rfl | rfl | rfl | hp
  · rcases he with rfl | rfl | rfl | rfl <;>
      exact ⟨by norm_num [eInfinity_opposite_edge],
        by norm_num [eInfinity_opposite_edge, Prod.ext_iff]⟩
  · rcases he with rfl | rfl | rfl | rfl <;>
      exact ⟨by norm_num [eInfinity_opposite_edge],
        by norm_num [eInfinity_opposite_edge, Prod.ext_iff]⟩
  · rcases he with rfl | rfl | rfl | rfl <;>
      exact ⟨by norm_num [eInfinity_opposite_edge],
        by norm_num [eInfinity_opposite_edge, Prod.ext_iff]⟩
  · rcases he with rfl | rfl | rfl | rfl <;>
      exact ⟨by norm_num [eInfinity_opposite_edge],
        by norm_num [eInfinity_opposite_edge, Prod.ext_iff]⟩
  · rcases he with rfl | rfl | rfl | rfl <;>
      exact ⟨by norm_num [eInfinity_opposite_edge],
        by norm_num [eInfinity_opposite_edge, Prod.ext_iff]⟩
  · rcases he with rfl | rfl | rfl | rfl
    · have h1 := einf_gen p 0 (by omega) (by omega) (by omega) (by omega)
      norm_num at h1
      rw [h1]
      refine ⟨?_, ?_⟩
      · show eInfinity_opposite_edge (1 - p) 2 = (p, 0)
        have h2 := einf_gen (1 - p) 2 (by omega) (by omega) (by omega) (by omega)
        norm_num at h2
        rw [h2]
        try simp only [Prod.mk.injEq, and_true, true_and]
        try omega
      · simp only [ne_eq, Prod.mk.injEq, and_true, true_and]
        try omega
    · have h1 := einf_gen p 1 (by omega) (by omega) (by omega) (by omega)
      norm_num at h1
      rw [h1]
      refine ⟨?_, ?_⟩
      · show eInfinity_opposite_edge (-p) 3 = (p, 1)
        have h2 := einf_gen (-p) 3 (by omega) (by omega) (by omega) (by omega)
        norm_num at h2
        rw [h2]
        try simp only [Prod.mk.injEq, and_true, true_and]
        try omega
      · simp only [ne_eq, Prod.mk.injEq, and_true, true_and]
        try omega
    · have h1 := einf_gen p 2 (by omega) (by omega) (by omega) (by omega)
      norm_num at h1
      rw [h1]
      refine ⟨?_, ?_⟩
      · show eInfinity_opposite_edge (1 - p) 0 = (p, 2)
        have h2 := einf_gen (1 - p) 0 (by omega) (by omega) (by omega) (by omega)
        norm_num at h2
        rw [h2]
        try simp only [Prod.mk.injEq, and_true, true_and]
        try omega
      · simp only [ne_eq, Prod.mk.injEq, and_true, true_and]
        try omega
    · have h1 := einf_gen p 3 (by omega) (by omega) (by omega) (by omega)
      norm_num at h1
      rw [h1]
      refine ⟨?_, ?_⟩
      · show eInfinity_opposite_edge (-p) 1 = (p, 3)
        have h2 := einf_gen (-p) 1 (by omega) (by omega) (by omega) (by omega)
        norm_num at h2
        rw [h2]
        try simp only [Prod.mk.injEq, and_true, true_and]
        try omega
      · simp only [ne_eq, Prod.mk.injEq, and_true, true_and]
        try omega

theorem tfr_00_nil :
    tfractal_opposite_edge (([] : List TSym), 0) 0 =
      Except.ok ((([] : List TSym), 2), 2) := rfl

theorem tfr_00_L (ys : List TSym) :
    tfractal_opposite_edge (ys ++ [TSym.L], 0) 0 = Except.ok ((ys, 1), 2) := by
  norm_num [tfractal_opposite_edge, List.getLast?_concat, List.dropLast_concat]

theorem tfr_00_R (ys : List TSym) :
    tfractal_opposite_edge (ys ++ [TSym.R], 0) 0 = Except.ok ((ys, 3), 2) := by
  norm_num [tfractal_opposite_edge, List.getLast?_concat, List.dropLast_concat]

theorem tfr_22_nil :
    tfractal_opposite_edge (([] : List TSym), 2) 2 =
      Except.ok ((([] : List TSym), 0), 0) := rfl

theorem tfr_22_L (ys : List TSym) :
    tfractal_opposite_edge (ys ++ [TSym.L], 2) 2 = Except.ok ((ys, 1), 0) := by
  norm_num [tfractal_opposite_edge, List.getLast?_concat, List.dropLast_concat]

theorem tfr_22_R (ys : List TSym) :
    tfractal_opposite_edge (ys ++ [TSym.R], 2) 2 = Except.ok ((ys, 3), 0) := by
  norm_num [tfractal_opposite_edge, List.getLast?_concat, List.dropLast_concat]

theorem tfractal_invol (w : List TSym) (i e : ℤ)
    (hi : i = 0 ∨ i = 1 ∨ i = 2 ∨ i = 3) (he : e = 0 ∨ e = 1 ∨ e = 2 ∨ e = 3) :
    ∃ q : (List TSym × ℤ) × ℤ,
      tfractal_opposite_edge (w, i) e = Except.ok q ∧
      tfractal_opposite_edge q.1 q.2 = Except.ok ((w, i), e) ∧
      q ≠ ((w, i), e) := by
  rcases hi with rfl | rfl | rfl | rfl <;> rcases he with rfl | rfl | rfl | rfl
  · rcases List.eq_nil_or_concat w with rfl | ⟨ys, y, rfl⟩
    · exact ⟨(([], 2), 2), tfr_00_nil, tfr_22_nil, by simp⟩
    · simp only [List.concat_eq_append]
      cases y
      · exact ⟨((ys, 1), 2), tfr_00_L ys, rfl, by simp⟩
      · exact ⟨((ys, 3), 2), tfr_00_R ys, rfl, by simp⟩
  · exact ⟨((w, 0), 3), rfl, rfl, by simp⟩
  · exact ⟨((w, 2), 0), rfl, rfl, by simp⟩
  · exact ⟨((w, 0), 1), rfl, rfl, by simp⟩
  · exact ⟨((w ++ [TSym.L], 2), 2), rfl, tfr_22_L w, by simp⟩
  · exact ⟨((w, 2), 3), rfl, rfl, by simp⟩
  · exact ⟨((w ++ [TSym.L], 0), 0), rfl, tfr_00_L w, by simp⟩
  · exact ⟨((w, 3), 1), rfl, rfl, by simp⟩
  · exact ⟨((w, 0), 2), rfl, rfl, by simp⟩
  · exact ⟨((w, 3), 3), rfl, rfl, by simp⟩
  · rcases List.eq_nil_or_concat w with rfl | ⟨ys, y, rfl⟩
    · exact ⟨(([], 0), 0), tfr_22_nil, tfr_00_nil, by simp⟩
    · simp only [List.concat_eq_append]
      cases y
      · exact ⟨((ys, 1), 0), tfr_22_L ys, rfl, by simp⟩
      · exact ⟨((ys, 3), 0), tfr_22_R ys, rfl, by simp⟩
  · exact ⟨((w, 1), 1), rfl, rfl, by simp⟩
  · exact ⟨((w ++ [TSym.R], 2), 2), rfl, tfr_22_R w, by simp⟩
  · exact ⟨((w, 1), 3), rfl, rfl, by simp⟩
  · exact ⟨((w ++ [TSym.R], 0), 0), rfl, tfr_00_R w, by simp⟩
  · exact ⟨((w, 2), 1), rfl, rfl, by simp⟩

/-! ## Claim theorems -/

/-- C1: for every one of the four infinite-family descriptors
(InfiniteStaircase, EInfinity, TFractal, ChamanaraSurface), for every label
`p` in its label space and every edge `e` in `{0,1,2,3}`, `opposite_edge` is
a fixed-point-free involution: `opposite_edge (opposite_edge p e) = (p, e)`
and `opposite_edge p e ≠ (p, e)`. -/
theorem opposite_edge_involutions :
    (∀ p e : ℤ, e = 0 ∨ e = 1 ∨ e = 2 ∨ e = 3 →
      infiniteStaircase_opposite_edge (infiniteStaircase_opposite_edge p e).1
          (infiniteStaircase_opposite_edge p e).2 = (p, e) ∧
        infiniteStaircase_opposite_edge p e ≠ (p, e)) ∧
    (∀ p e : ℤ, e = 0 ∨ e = 1 ∨ e = 2 ∨ e = 3 →
      eInfinity_opposite_edge (eInfinity_opposite_edge p e).1
          (eInfinity_opposite_edge p e).2 = (p, e) ∧
        eInfinity_opposite_edge p e ≠ (p, e)) ∧
    (∀ (w : List TSym) (i e : ℤ), (i = 0 ∨ i = 1 ∨ i = 2 ∨ i = 3) →
      (e = 0 ∨ e = 1 ∨ e = 2 ∨ e = 3) →
      ∃ q : (List TSym × ℤ) × ℤ,
        tfractal_opposite_edge (w, i) e = Except.ok q ∧
        tfractal_opposite_edge q.1 q.2 = Except.ok ((w, i), e) ∧
        q ≠ ((w, i), e)) ∧
    (∀ p e : ℤ, e = 0 ∨ e = 1 ∨ e = 2 ∨ e = 3 →
      chamanara_opposite_edge (chamanara_opposite_edge p e).1
          (chamanara_opposite_edge p e).2 = (p, e) ∧
        chamanara_opposite_edge p e ≠ (p, e)) :=
  ⟨staircase_invol, einf_invol, tfractal_invol, chamanara_invol⟩

/-- Witness for C1: the involution property applied at concrete label/edge
pairs of each of the four surfaces. -/
theorem opposite_edge_involutions_witness :
    (infiniteStaircase_opposite_edge (infiniteStaircase_opposite_edge 0 0).1
        (infiniteStaircase_opposite_edge 0 0).2 = (0, 0) ∧
      infiniteStaircase_opposite_edge 0 0 ≠ (0, 0)) ∧
    (eInfinity_opposite_edge (eInfinity_opposite_edge 5 1).1
        (eInfinity_opposite_edge 5 1).2 = (5, 1) ∧
      eInfinity_opposite_edge 5 1 ≠ (5, 1)) ∧
    (∃ q : (List TSym × ℤ) × ℤ,
      tfractal_opposite_edge ([TSym.L], 1) 2 = Except.ok q ∧
      tfractal_opposite_edge q.1 q.2 = Except.ok (([TSym.L], 1), 2) ∧
      q ≠ (([TSym.L], 1), 2)) ∧
    (chamanara_opposite_edge (chamanara_opposite_edge (-7) 3).1
        (chamanara_opposite_edge (-7) 3).2 = (-7, 3) ∧
      chamanara_opposite_edge (-7) 3 ≠ (-7, 3)) :=
  ⟨opposite_edge_involutions.1 0 0 (Or.inl rfl),
    opposite_edge_involutions.2.1 5 1 (Or.inr (Or.inl rfl)),
    opposite_edge_involutions.2.2.1 [TSym.L] 1 2 (Or.inr (Or.inl rfl))
      (Or.inr (Or.inr (Or.inl rfl))),
    opposite_edge_involutions.2.2.2 (-7) 3 (Or.inr (Or.inr (Or.inr rfl)))⟩

/-- C3 counterexample: the claim says that for `|p| > 2` and odd `e` the
returned label equals `p`; at `p = 3`, `e = 1` the code returns `(-3, 3)`,
whose label is `-3 ≠ 3`. -/
theorem eInfinity_odd_edge_label_counterexample :
    eInfinity_opposite_edge 3 1 = (-3, 3) ∧ eInfinity_opposite_edge 3 1 ≠ (3, 3) := by
  constructor <;> decide

/-- C3 (amended): for the EInfinity surface, for every label `p` with
`|p| > 2` and every odd edge `e ∈ {1,3}`, `opposite_edge p e` negates the
label — the returned label equals `-p` — and the returned edge is
`(e+2) mod 4`. -/
theorem eInfinity_odd_edge_negates_label (p : ℤ) (hp : 2 < |p|) (e : ℤ)
    (he : e = 1 ∨ e = 3) :
    eInfinity_opposite_edge p e = (-p, (e + 2) % 4) := by
  have hp2 : p < -2 ∨ 2 < p := by
    rcases lt_abs.mp hp with h | h
    · right; exact h
    · left; omega
  have h1 := einf_gen p e (by omega) (by omega) (by omega) (by omega)
  rcases he with rfl | rfl <;> rw [h1] <;> norm_num

/-- Witness for C3 (amended): the negation rule applied at `p = 3`, `e = 1`. -/
theorem eInfinity_odd_edge_negates_label_witness :
    2 < |(3 : ℤ)| ∧ eInfinity_opposite_edge 3 1 = (-3, (1 + 2) % 4) :=
  ⟨by decide, eInfinity_odd_edge_negates_label 3 (by decide) 1 (Or.inl rfl)⟩

/-- C5: for the TFractal surface, `opposite_edge ((w,0), 0)` returns
`((w,2),2)` when `w` is empty, `((w minus last, 1), 2)` when the last symbol
is `L`, `((w minus last, 3), 2)` when it is `R`; symmetrically
`opposite_edge ((w,2), 2)` returns `((w,0),0)` when `w` is empty,
`((w minus last, 1), 0)` for `L`, `((w minus last, 3), 0)` for `R`; and in
every case the returned edge equals `(e+2) mod 4`. -/
theorem tfractal_ascent_cases :
    tfractal_opposite_edge (([] : List TSym), 0) 0 =
        Except.ok ((([] : List TSym), 2), 2) ∧
    (∀ ys : List TSym,
      tfractal_opposite_edge (ys ++ [TSym.L], 0) 0 = Except.ok ((ys, 1), 2) ∧
      tfractal_opposite_edge (ys ++ [TSym.R], 0) 0 = Except.ok ((ys, 3), 2)) ∧
    tfractal_opposite_edge (([] : List TSym), 2) 2 =
        Except.ok ((([] : List TSym), 0), 0) ∧
    (∀ ys : List TSym,
      tfractal_opposite_edge (ys ++ [TSym.L], 2) 2 = Except.ok ((ys, 1), 0) ∧
      tfractal_opposite_edge (ys ++ [TSym.R], 2) 2 = Except.ok ((ys, 3), 0)) ∧
    (∀ (w : List TSym) (i e : ℤ), (i = 0 ∨ i = 1 ∨ i = 2 ∨ i = 3) →
      (e = 0 ∨ e = 1 ∨ e = 2 ∨ e = 3) →
      ∃ q : List TSym × ℤ,
        tfractal_opposite_edge (w, i) e = Except.ok (q, (e + 2) % 4)) := by
  refine ⟨tfr_00_nil, fun ys => ⟨tfr_00_L ys, tfr_00_R ys⟩, tfr_22_nil,
    fun ys => ⟨tfr_22_L ys, tfr_22_R ys⟩, ?_⟩
  intro w i e hi he
  rcases hi with rfl | rfl | rfl | rfl <;> rcases he with rfl | rfl | rfl | rfl <;>
    exact ⟨_, rfl⟩

/-- Witness for C5: the ascent rule applied at the concrete words `[L]` and
`[]`, and the generic edge-flip applied at `((([R]), 1), 2)`. -/
theorem tfractal_ascent_cases_witness :
    tfractal_opposite_edge ([TSym.L], 0) 0 = Except.ok ((([] : List TSym), 1), 2) ∧
    ∃ q : List TSym × ℤ,
      tfractal_opposite_edge ([TSym.R], 1) 2 = Except.ok (q, ((2 : ℤ) + 2) % 4) := by
  constructor
  · have h := (tfractal_ascent_cases.2.1 ([] : List TSym)).1
    simpa using h
  · exact tfractal_ascent_cases.2.2.2.2 [TSym.R] 1 2 (Or.inr (Or.inl rfl))
      (Or.inr (Or.inr (Or.inl rfl)))

/-- C6: the full case table of `ChamanaraSurface.opposite_edge`, including
the boundary values `opposite_edge 0 1 = (1,1)` and
`opposite_edge 1 1 = (0,1)`. -/
theorem chamanara_opposite_edge_cases (p : ℤ) :
    chamanara_opposite_edge p 0 = (1 - p, 0) ∧
    chamanara_opposite_edge p 2 = (1 - p, 2) ∧
    (p < 0 → chamanara_opposite_edge p 1 = (p + 1, 3)) ∧
    (p > 1 → chamanara_opposite_edge p 1 = (p - 1, 3)) ∧
    (p = 0 ∨ p = 1 → chamanara_opposite_edge p 1 = (1 - p, 1)) ∧
    (p ≤ 0 → chamanara_opposite_edge p 3 = (p - 1, 1)) ∧
    (p ≥ 1 → chamanara_opposite_edge p 3 = (p + 1, 1)) ∧
    chamanara_opposite_edge 0 1 = (1, 1) ∧
    chamanara_opposite_edge 1 1 = (0, 1) := by
  refine ⟨chamanara_eval0 p, chamanara_eval2 p, ?_, ?_, ?_, ?_, ?_,
    by decide, by decide⟩
  · intro h
    rw [chamanara_eval1, if_pos h]
  · intro h
    have h0 : ¬p < 0 := by omega
    rw [chamanara_eval1, if_neg h0, if_pos h]
  · intro h
    have h0 : ¬p < 0 := by omega
    have h1 : ¬p > 1 := by omega
    rw [chamanara_eval1, if_neg h0, if_neg h1]
  · intro h
    rw [chamanara_eval3, if_pos h]
  · intro h
    have h0 : ¬p ≤ 0 := by omega
    rw [chamanara_eval3, if_neg h0]

/-- Witness for C6: the case table applied at `p = -5` (edge 1) and `p = 3`
(edge 3). -/
theorem chamanara_opposite_edge_cases_witness :
    chamanara_opposite_edge (-5) 1 = (-5 + 1, 3) ∧
    chamanara_opposite_edge 3 3 = (3 + 1, 1) :=
  ⟨(chamanara_opposite_edge_cases (-5)).2.2.1 (by decide),
    (chamanara_opposite_edge_cases 3).2.2.2.2.2.2.1 (by decide)⟩

/-- C7 counterexample: the claim says every descriptor fails with an
`InvalidEdge` error for an edge outside `{0,1,2,3}`; but
`InfiniteStaircase.opposite_edge 0 4` performs no validation and returns the
(label, edge) pair `(-1, 2)`. -/
theorem invalid_edge_counterexample :
    infiniteStaircase_opposite_edge 0 4 = (-1, 2) := by decide

/-- C7 (amended): only `TFractal.opposite_edge` validates the edge, failing
with a `ValueError` for any edge outside `{0,1,2,3}`; `InfiniteStaircase`,
`EInfinity` and `ChamanaraSurface` apply their case rules to the raw edge
value and return a (label, edge) pair — e.g. at edge `4` they return
`(-1,2)`, `(1,2)` and `(-1,1)` respectively from label `0` (Chamanara
treats every edge outside `{0,1,2}` like edge 3). -/
theorem invalid_edge_behavior :
    (∀ (p : List TSym × ℤ) (e : ℤ), ¬(e = 0 ∨ e = 1 ∨ e = 2 ∨ e = 3) →
      tfractal_opposite_edge p e = Except.error PyErr.valueError) ∧
    infiniteStaircase_opposite_edge 0 4 = (-1, 2) ∧
    eInfinity_opposite_edge 0 4 = (1, 2) ∧
    chamanara_opposite_edge 0 4 = (-1, 1) := by
  refine ⟨?_, by decide, by decide, by decide⟩
  intro p e he
  simp only [tfractal_opposite_edge, he, if_false]

/-- Witness for C7 (amended): the TFractal edge validation applied at the
out-of-range edge `5`. -/
theorem invalid_edge_behavior_witness :
    tfractal_opposite_edge (([] : List TSym), 0) 5 = Except.error PyErr.valueError :=
  invalid_edge_behavior.1 ([], 0) 5 (by decide)

/-- C8: for the InfiniteStaircase, `opposite_edge p e` equals
`(p+1, (e+2) mod 4)` when `p+e` is odd and `(p-1, (e+2) mod 4)` when it is
even; in particular `opposite_edge 0 0 = (-1,2)` and
`opposite_edge 0 1 = (1,3)`. -/
theorem infiniteStaircase_rule :
    (∀ p e : ℤ, e = 0 ∨ e = 1 ∨ e = 2 ∨ e = 3 →
      infiniteStaircase_opposite_edge p e =
        (if (p + e) % 2 = 1 then p + 1 else p - 1, (e + 2) % 4)) ∧
    infiniteStaircase_opposite_edge 0 0 = (-1, 2) ∧
    infiniteStaircase_opposite_edge 0 1 = (1, 3) :=
  ⟨fun p e _ => staircase_eval p e, by decide, by decide⟩

/-- Witness for C8: the parity rule applied at `p = 7`, `e = 2`. -/
theorem infiniteStaircase_rule_witness :
    infiniteStaircase_opposite_edge 7 2 =
      (if ((7 : ℤ) + 2) % 2 = 1 then 7 + 1 else 7 - 1, ((2 : ℤ) + 2) % 4) :=
  infiniteStaircase_rule.1 7 2 (Or.inr (Or.inr (Or.inl rfl)))

/-- C2 (code behavior at the failing input): `ChamanaraPolygon(2)` — an
`alpha` outside `(0,1)` — succeeds and returns the polygon with edge vectors
`(1,0), (1,-1), (0,-1), (-2,2)`, because the source constructs its
`ValueError` objects without raising them. -/
theorem chamanaraPolygon_accepts_invalid_alpha :
    chamanaraPolygon 2 = Except.ok [(1, 0), (1, -1), (0, -1), (-2, 2)] := by
  norm_num [chamanaraPolygon]

/-- C10: in the duplicated top-level module, `TFractal.polygon` fails with a
`NameError` on every label (it reads a variable `w` that is never assigned),
while the flatsurf version returns `(1/r^|w|)` times the base polygon for
tag `lab.2`; the two copies are therefore not behaviorally equivalent. -/
theorem dup_tfractal_polygon_diverges {F : Type} [Field F] [DecidableEq F]
    (w r h1 h2 : F) (lab : List TSym × ℤ) :
    dup_tfractal_polygon w r h1 h2 lab = Except.error PyErr.nameError ∧
    (r ≠ 0 → (lab.2 = 0 ∨ lab.2 = 1 ∨ lab.2 = 2 ∨ lab.2 = 3) →
      ∃ base : List (F × F),
        tfractal_base_polygon w r h1 h2 lab.2 = Except.ok base ∧
        tfractal_polygon w r h1 h2 lab =
          Except.ok (base.map fun v =>
            ((1 / r ^ lab.1.length) * v.1, (1 / r ^ lab.1.length) * v.2)) ∧
        tfractal_polygon w r h1 h2 lab ≠ dup_tfractal_polygon w r h1 h2 lab) := by
  refine ⟨rfl, ?_⟩
  intro hr hi
  have hpow : ¬r ^ lab.1.length = 0 := pow_ne_zero _ hr
  obtain ⟨base, hbase⟩ :
      ∃ base, tfractal_base_polygon w r h1 h2 lab.2 = Except.ok base := by
    rcases hi with h | h | h | h <;> rw [h] <;> exact ⟨_, rfl⟩
  have heq : tfractal_polygon w r h1 h2 lab =
      Except.ok (base.map fun v =>
        ((1 / r ^ lab.1.length) * v.1, (1 / r ^ lab.1.length) * v.2)) := by
    unfold tfractal_polygon
    rw [if_neg hpow, hbase]
  refine ⟨base, hbase, heq, ?_⟩
  rw [heq]
  simp [dup_tfractal_polygon]

/-- Witness for C10: the divergence of the two `polygon` implementations at
the base label over `ℚ` with the default parameters. -/
theorem dup_tfractal_polygon_diverges_witness :
    tfractal_polygon (1 : ℚ) 2 1 1 (([] : List TSym), 0) ≠
      dup_tfractal_polygon (1 : ℚ) 2 1 1 (([] : List TSym), 0) := by
  obtain ⟨base, hbase, heq, hne⟩ :=
    (dup_tfractal_polygon_diverges (1 : ℚ) 2 1 1 ([], 0)).2 (by norm_num)
      (Or.inl rfl)
  exact hne
